import Mathlib

/-!
# Verification of the career-coach fetch/normalize/dedup/score pipeline

A shallow embedding of the TypeScript sources of the `career-coach`
repository (`src/matcher.ts`, `src/fetcher.ts`, and the unnamed source file
holding config loading, both source adapters, and the deduplicating
aggregator), together with theorems settling the specification's claims.

Modelling conventions:
* JavaScript numbers are modelled as `ℚ` (exact rationals); `Math.round`
  is `⌊q + 1/2⌋` (JS half-up rounding), producing an `ℤ`.
* JavaScript strings are Lean `String`s; `toLowerCase` is modelled as the
  ASCII lowering `jsToLower` (the only case folding the data uses), and
  `String.prototype.includes` as a contiguous-sublist check on the
  character lists.
* Fallible operations (schema validation, HTTP fetching, JSON decoding)
  return `Option`; the code catches every exception, so no error channel
  beyond `Option`/defaulting exists in the model.
-/

/-- ASCII lowering of a single character, exactly `Char.toLower`'s
arithmetic: `A`–`Z` are shifted by 32, everything else is unchanged.
Models `String.prototype.toLowerCase` on the ASCII data this program
handles. -/
def jsLowerChar (c : Char) : Char :=
  if 65 ≤ c.toNat ∧ c.toNat ≤ 90 then Char.ofNat (c.toNat + 32) else c

/-- Models `String.prototype.toLowerCase` (ASCII). -/
def jsToLower (s : String) : String :=
  ⟨s.data.map jsLowerChar⟩

/-- `pat` occurs as a contiguous run inside `l`. -/
def listIncludes (pat : List Char) : List Char → Bool
  | [] => pat.isPrefixOf []
  | l@(_ :: t) => pat.isPrefixOf l || listIncludes pat t

/-- Models `s.includes(pat)` for JS strings. -/
def jsIncludes (s pat : String) : Bool :=
  listIncludes pat.data s.data

/-- Models `Math.round` on a finite JS number: half-up rounding. -/
def jsRound (q : ℚ) : ℤ := ⌊q + 1 / 2⌋

/-- The source enum `JobSource` from `types.ts`. -/
inductive JobSource where
  | remoteok
  | web3career
deriving DecidableEq, Repr

/-- The `salary` field of `Job` from `types.ts`. -/
structure Salary where
  min : ℚ
  max : ℚ
  currency : String
  raw : String
deriving DecidableEq, Repr

/-- The `Job` entity from `types.ts`.  `postedAt` carries the epoch value
of the parsed `Date`. -/
structure Job where
  id : String
  title : String
  company : String
  url : String
  salary : Salary
  location : String
  remote : Bool
  skills : List String
  postedAt : ℤ
  source : JobSource
deriving DecidableEq, Repr

/-- The `preferences` part of the config schema (`config.ts`). -/
structure Preferences where
  skills : List String
  salaryMinimum : ℚ
  location : String
deriving DecidableEq, Repr

/-- The `user` part of the config schema (`config.ts`). -/
structure UserInfo where
  name : String
  email : String
  timezone : String
deriving DecidableEq, Repr

/-- The validated `Config` object (`config.ts`). -/
structure Config where
  user : UserInfo
  preferences : Preferences
  hardNos : List String
deriving DecidableEq, Repr

/-- The `MatchResult` entity from `types.ts`; `score` is an integer by
construction of `scoreJob`. -/
structure MatchResult where
  job : Job
  score : ℤ
  matchedSkills : List String
  explanation : List String
deriving DecidableEq, Repr

/-- `filterHardNos` from `matcher.ts` lines 5–30: the empty-pattern fast
path returns the input; otherwise a job survives exactly when the list of
matched (lower-cased) patterns found in its lower-cased
title/company/skills is empty. -/
def filterHardNos (jobs : List Job) (hardNos : List String) : List Job :=
  if hardNos.length = 0 then jobs
  else
    let patterns := hardNos.map jsToLower
    jobs.filter fun job =>
      let searchable := (job.title :: job.company :: job.skills).map jsToLower
      (patterns.filter fun pattern =>
        searchable.any fun field => jsIncludes field pattern).length = 0

/-- `TOP_MATCHES` from `matcher.ts` line 32. -/
def TOP_MATCHES : ℕ := 10

/-- `scoreJob` from `matcher.ts` lines 34–55, returning the pair
`(score, matchedSkills)`. -/
def scoreJob (job : Job) (config : Config) : ℤ × List String :=
  let userSkills := config.preferences.skills.map jsToLower
  let jobSkills := job.skills.map jsToLower
  let matchedSkills := userSkills.filter fun skill => jobSkills.any fun js => js = skill
  let skillScore : ℚ := ((matchedSkills.length : ℚ) / (userSkills.length : ℚ)) * 100
  let salaryBonus : ℚ := if config.preferences.salaryMinimum ≤ job.salary.min then 10 else 0
  let userLocation := jsToLower config.preferences.location
  let jobLocation := jsToLower job.location
  let locationBonus : ℚ :=
    if jsIncludes jobLocation userLocation || jsIncludes userLocation "remote" then 10 else 0
  let score := min 100 (jsRound (skillScore + salaryBonus + locationBonus))
  (score, matchedSkills)

/-- `generateExplanation` from `matcher.ts` lines 57–86. -/
def generateExplanation (job : Job) (matchedSkills : List String) (config : Config) :
    List String :=
  let userSkillCount := config.preferences.skills.length
  let line1 :=
    if matchedSkills.length = userSkillCount then
      "Skills: 100% match (all " ++ toString userSkillCount ++ " skills)"
    else
      "Skills: " ++ toString matchedSkills.length ++ "/" ++ toString userSkillCount ++
        " match (" ++ String.intercalate ", " matchedSkills ++ ")"
  let line2 :=
    if 0 < job.salary.min then
      "Salary: " ++ job.salary.raw ++
        (if config.preferences.salaryMinimum ≤ job.salary.min then " — meets your minimum"
         else " — below your $" ++ toString config.preferences.salaryMinimum ++ " minimum")
    else "Salary: Not disclosed"
  let line3 :=
    if job.remote then "Remote: Yes (" ++ job.location ++ ")"
    else "Remote: Not specified (" ++ job.location ++ ")"
  [line1, line2, line3]

/-- The sort comparator of `matcher.ts` line 100:
`(a, b) => b.score - a.score || b.job.postedAt.getTime() - a.job.postedAt.getTime()`
(`||` falls through exactly when the first difference is `0`). -/
def jsCompare (a b : MatchResult) : ℤ :=
  if b.score - a.score = 0 then b.job.postedAt - a.job.postedAt else b.score - a.score

/-- `a` may be placed before `b` by the comparator-driven sort. -/
def matchLE (a b : MatchResult) : Bool := jsCompare a b ≤ 0

/-- The ranking step of `matchJobs` (`matcher.ts` lines 99–101):
`Array.prototype.sort` is stable (ES2019), modelled by `List.mergeSort`,
followed by `slice(0, TOP_MATCHES)`. -/
def rankMatches (scored : List MatchResult) : List MatchResult :=
  (scored.mergeSort matchLE).take TOP_MATCHES

/-- `matchJobs` from `matcher.ts` lines 88–112. -/
def matchJobs (jobs : List Job) (config : Config) : List MatchResult :=
  let filtered := filterHardNos jobs config.hardNos
  let scored := filtered.map fun job =>
    let p := scoreJob job config
    { job := job, score := p.1, matchedSkills := p.2
      explanation := generateExplanation job p.2 config }
  rankMatches scored

/-- Placeholder for the hex SHA-256 digest used by `generateJobId`
(`createHash('sha256')...digest('hex')`): modelled as the identity, which
shares the properties the pipeline relies on (a deterministic, collision
free function of its input).  No claim depends on the digest's format. -/
def sha256Hex (s : String) : String := s

/-- `generateJobId` from `fetcher.ts` lines 29–32 (identical in the
unnamed source file): hash of the lower-cased `title + company`. -/
def generateJobId (title company : String) : String :=
  sha256Hex (jsToLower (title ++ company))

/-- Models `Date.parse` / `new Date(s).getTime()` as an arbitrary but
deterministic injective fold of the character codes; the spec notes
`postedAt` "need not be validated beyond parseability" and no claim
depends on the parsed value. -/
def jsDateParse (s : String) : ℤ :=
  s.data.foldl (fun a c => a * 1114112 + c.toNat) 0

/-- Models zod's `z.string().url()` check; no claim depends on which
strings pass it, only on validation being applied per record. -/
def jsUrlValid (s : String) : Bool := jsIncludes s "://"

/-- A JS value that is a number, a string, `null`, or absent
(`undefined`) — the parsed type of a zod `z.union([z.number(),
z.string()]).nullable().optional()` field. -/
inductive JsNumStr where
  | absent
  | null
  | num (q : ℚ)
  | str (s : String)
deriving DecidableEq, Repr

/-- A JS value that is a string, `null`, or absent — the parsed type of a
zod `z.string().nullable().optional()` field. -/
inductive JsStrOpt where
  | absent
  | null
  | str (s : String)
deriving DecidableEq, Repr

/-- Parses the digits of a decimal natural number; `none` when the list
is empty or contains a non-digit. -/
def decDigits? : List Char → Option ℕ
  | [] => none
  | l => l.foldl (fun acc c =>
      match acc with
      | none => none
      | some n => if c.isDigit then some (n * 10 + (c.toNat - 48)) else none)
      (some 0)

/-- Models the JS `Number(string)` coercion on the integer literals the
upstream APIs send: empty string → `0`, optionally signed digit string →
its value, anything else → NaN (`none`).  (Decimals/exponents/hex are not
modelled; no claim depends on them.) -/
def jsParseNumber (s : String) : Option ℚ :=
  match s.data with
  | [] => some 0
  | '-' :: rest => (decDigits? rest).map fun n => -(n : ℚ)
  | '+' :: rest => (decDigits? rest).map fun n => (n : ℚ)
  | l => (decDigits? l).map fun n => (n : ℚ)

/-- Models `Number(v)` on a `number | string | null | undefined` value;
`none` stands for NaN. -/
def jsNumber : JsNumStr → Option ℚ
  | .absent => none
  | .null => some 0
  | .num q => some q
  | .str s => jsParseNumber s

/-- Models `x || 0` applied to a `Number(...)` result: NaN and `0` (the
falsy numbers) become `0`, every other value is kept. -/
def jsOrZero : Option ℚ → ℚ
  | none => 0
  | some q => if q = 0 then 0 else q

/-- Models `a ?? ''` on a `string | null | undefined` value. -/
def jsCoalesceEmpty : JsStrOpt → String
  | .str s => s
  | _ => ""

/-- Models `a || b` on strings: the empty string is the only falsy
string. -/
def jsOrStr (a b : String) : String := if a = "" then b else a

/-- A raw JSON object presented to `RemoteOKJobSchema.safeParse`:
`none` marks an absent field.  (A record whose fields have entirely wrong
types is subsumed by a parse failure.) -/
structure RemoteOKRawRecord where
  id : Option String
  position : Option String
  company : Option String
  url : Option String
  salary_min : Option ℚ
  salary_max : Option ℚ
  location : Option String
  tags : Option (List String)
  date : Option String
deriving DecidableEq, Repr

/-- The parsed output type of `RemoteOKJobSchema` (`fetcher.ts` lines
11–21), with zod defaults applied. -/
structure RemoteOKJob where
  id : String
  position : String
  company : String
  url : String
  salary_min : ℚ
  salary_max : ℚ
  location : String
  tags : List String
  date : String
deriving DecidableEq, Repr

/-- `RemoteOKJobSchema.safeParse`: required fields must be present (with
`position`/`company` non-empty and `url` a URL); optional fields default
to `0` / `''` / `[]`. -/
def safeParseRemoteOK (r : RemoteOKRawRecord) : Option RemoteOKJob := do
  let id ← r.id
  let position ← r.position
  let company ← r.company
  let url ← r.url
  let date ← r.date
  if position = "" then none
  else if company = "" then none
  else if ¬ jsUrlValid url then none
  else
    some { id := id, position := position, company := company, url := url
           salary_min := r.salary_min.getD 0, salary_max := r.salary_max.getD 0
           location := r.location.getD "", tags := r.tags.getD [], date := date }

/-- `normalizeRemoteOKJob` from `fetcher.ts` lines 53–72 (identical in
the unnamed source file). -/
def normalizeRemoteOKJob (raw : RemoteOKJob) : Job :=
  let hasSalary := 0 < raw.salary_min ∨ 0 < raw.salary_max
  { id := generateJobId raw.position raw.company
    title := raw.position
    company := raw.company
    url := raw.url
    salary :=
      { min := raw.salary_min, max := raw.salary_max
        currency := if hasSalary then "USD" else ""
        raw := if hasSalary then
            "$" ++ toString raw.salary_min ++ "-$" ++ toString raw.salary_max
          else "" }
    location := jsOrStr raw.location "Remote"
    remote := true
    skills := raw.tags.map jsToLower
    postedAt := jsDateParse raw.date
    source := .remoteok }

/-- A raw JSON object presented to `Web3CareerJobSchema.safeParse`
(unnamed source file, lines 163–177): `none` marks an absent field. -/
structure Web3CareerRawRecord where
  id : Option ℚ
  title : Option String
  company : Option String
  apply_url : Option String
  date : Option String
  is_remote : Option Bool
  location : Option String
  country : Option String
  tags : Option (List String)
  salary_min_value : JsNumStr
  salary_max_value : JsNumStr
  salary_currency : JsStrOpt
  salary_unit : JsStrOpt
deriving DecidableEq, Repr

/-- The parsed output type of `Web3CareerJobSchema`, with zod defaults
applied; the nullable-optional salary fields keep their
number/string/null/undefined value. -/
structure Web3CareerJob where
  id : ℚ
  title : String
  company : String
  apply_url : String
  date : String
  is_remote : Bool
  location : String
  country : String
  tags : List String
  salary_min_value : JsNumStr
  salary_max_value : JsNumStr
  salary_currency : JsStrOpt
  salary_unit : JsStrOpt
deriving DecidableEq, Repr

/-- `Web3CareerJobSchema.safeParse`: required fields present (non-empty
`title`/`company`, `apply_url` a URL); `is_remote` defaults to `false`,
`location`/`country` to `''`, `tags` to `[]`. -/
def safeParseWeb3Career (r : Web3CareerRawRecord) : Option Web3CareerJob := do
  let id ← r.id
  let title ← r.title
  let company ← r.company
  let apply_url ← r.apply_url
  let date ← r.date
  if title = "" then none
  else if company = "" then none
  else if ¬ jsUrlValid apply_url then none
  else
    some { id := id, title := title, company := company, apply_url := apply_url
           date := date, is_remote := r.is_remote.getD false
           location := r.location.getD "", country := r.country.getD ""
           tags := r.tags.getD []
           salary_min_value := r.salary_min_value
           salary_max_value := r.salary_max_value
           salary_currency := r.salary_currency
           salary_unit := r.salary_unit }

/-- `normalizeWeb3CareerSalary` from the unnamed source file, lines
181–193. -/
def normalizeWeb3CareerSalary (raw : Web3CareerJob) : Salary :=
  let min := jsOrZero (jsNumber raw.salary_min_value)
  let max := jsOrZero (jsNumber raw.salary_max_value)
  let currency := jsCoalesceEmpty raw.salary_currency
  let hasSalary := 0 < min ∨ 0 < max
  { min := min, max := max
    currency := if hasSalary then jsOrStr currency "USD" else ""
    raw := if hasSalary then
        jsOrStr currency "$" ++ toString min ++ "-" ++ jsOrStr currency "$" ++ toString max
      else "" }

/-- `normalizeWeb3CareerJob` from the unnamed source file, lines
195–208. -/
def normalizeWeb3CareerJob (raw : Web3CareerJob) : Job :=
  { id := generateJobId raw.title raw.company
    title := raw.title
    company := raw.company
    url := raw.apply_url
    salary := normalizeWeb3CareerSalary raw
    location := jsOrStr raw.location (jsOrStr raw.country "Remote")
    remote := raw.is_remote
    skills := raw.tags.map jsToLower
    postedAt := jsDateParse raw.date
    source := .web3career }

/-- `MAX_RETRIES` from `fetcher.ts` line 7 (same constant in the unnamed
source file). -/
def MAX_RETRIES : ℕ := 2

/-- The outcome of one `fetch(url, ...)` attempt: a response carrying a
body with `response.ok` true, a non-success HTTP status, or a thrown
transport/timeout error. -/
inductive AttemptResult where
  | success (body : String)
  | httpError (status : ℕ)
  | thrown (message : String)
deriving DecidableEq, Repr

/-- The successful body of an attempt, if any. -/
def attemptSuccess : AttemptResult → Option String
  | .success body => some body
  | _ => none

/-- The loop body of `fetchWithRetry` (unnamed source file lines 82–99,
identical in `fetcher.ts`), starting at attempt number `attempt`: the
network is an oracle `outcomes` giving each attempt's result.  A success
returns immediately; any failure falls through to the next attempt while
`attempt <= MAX_RETRIES`; exhaustion returns `none` ("no response", never
an exception). -/
def fetchWithRetryFrom (outcomes : ℕ → AttemptResult) (attempt : ℕ) : Option String :=
  if attempt ≤ MAX_RETRIES then
    match attemptSuccess (outcomes attempt) with
    | some body => some body
    | none => fetchWithRetryFrom outcomes (attempt + 1)
  else none
termination_by MAX_RETRIES + 1 - attempt

/-- `fetchWithRetry`: the loop entered at attempt 0. -/
def fetchWithRetry (outcomes : ℕ → AttemptResult) : Option String :=
  fetchWithRetryFrom outcomes 0

/-- The decoded shape of a RemoteOK response body: `badBody` covers a
`response.json()` failure and a non-array top level (both yield `[]`);
otherwise the decoded array's elements, each modelled as a raw record
(the leading metadata element included). -/
inductive RemoteOKResponse where
  | badBody
  | jsonArray (data : List RemoteOKRawRecord)

/-- The body-processing half of `fetchFromRemoteOK` (unnamed source file
lines 122–161): drop the leading metadata element, `safeParse` each
remaining record, normalize the valid ones, drop the rest. -/
def remoteOKJobsOfBody (resp : RemoteOKResponse) : List Job :=
  match resp with
  | .badBody => []
  | .jsonArray data =>
      (data.drop 1).filterMap fun item => (safeParseRemoteOK item).map normalizeRemoteOKJob

/-- `fetchFromRemoteOK` as a function of the network oracle and the JSON
decoder for the delivered body: a `null` from `fetchWithRetry` yields
`[]`. -/
def fetchFromRemoteOK (outcomes : ℕ → AttemptResult)
    (decode : String → RemoteOKResponse) : List Job :=
  match fetchWithRetry outcomes with
  | none => []
  | some body => remoteOKJobsOfBody (decode body)

/-- The deduplication loop of `fetchAllJobs` (unnamed source file lines
263–276), carrying the `seen` id set (modelled as the list of ids added
so far) and returning the kept jobs together with `duplicateCount`. -/
def dedupeJobs (seen : List String) : List Job → List Job × ℕ
  | [] => ([], 0)
  | job :: rest =>
      if seen.contains job.id then
        let p := dedupeJobs seen rest
        (p.1, p.2 + 1)
      else
        let p := dedupeJobs (job.id :: seen) rest
        (job :: p.1, p.2)

/-- `fetchAllJobs` from the unnamed source file lines 258–280, as a
function of the two adapters' results: concatenate (RemoteOK first) and
deduplicate by `id`, first occurrence kept. -/
def fetchAllJobsDedup (remoteOKJobs web3Jobs : List Job) : List Job :=
  (dedupeJobs [] (remoteOKJobs ++ web3Jobs)).1

/-- `fetchAllJobs` from `fetcher.ts` lines 114–121, as a function of the
two adapters' results: plain concatenation, no deduplication. -/
def fetchAllJobsConcat (remoteOKJobs web3Jobs : List Job) : List Job :=
  remoteOKJobs ++ web3Jobs

/-! ## Concrete inputs used by the specification's scenarios and the
witness instantiations -/

/-- The user configuration of Scenario A: preference skills
`["rust","go","python"]`, a salary minimum, a plain location. -/
def cfgA : Config :=
  { user := { name := "u", email := "u@example.com", timezone := "UTC" }
    preferences :=
      { skills := ["rust", "go", "python"], salaryMinimum := 50000, location := "berlin" }
    hardNos := [] }

/-- The job of Scenario A: skills `["rust","go"]`, salary minimum met,
exact location match. -/
def jobA : Job :=
  { id := "a", title := "Engineer", company := "Acme", url := "https://acme.example/j"
    salary := { min := 60000, max := 70000, currency := "USD", raw := "$60000-$70000" }
    location := "Berlin", remote := true, skills := ["rust", "go"]
    postedAt := 0, source := .remoteok }

/-- The job of Scenario C: titled `"Crypto Backend Engineer"`. -/
def jobC : Job :=
  { id := "c", title := "Crypto Backend Engineer", company := "Acme"
    url := "https://acme.example/c"
    salary := { min := 0, max := 0, currency := "", raw := "" }
    location := "Remote", remote := true, skills := [], postedAt := 0, source := .remoteok }

/-- A job used to exhibit duplicate ids to the two `fetchAllJobs`
variants. -/
def jobDup : Job :=
  { id := generateJobId "Platform Engineer" "Octo", title := "Platform Engineer"
    company := "Octo", url := "https://octo.example/p"
    salary := { min := 0, max := 0, currency := "", raw := "" }
    location := "Remote", remote := true, skills := ["go"], postedAt := 5
    source := .remoteok }

/-- The same posting as `jobDup` as the second provider reports it. -/
def jobDupW3 : Job :=
  { jobDup with url := "https://web3.example/p", source := .web3career, postedAt := 7 }

/-- A network oracle on which every attempt fails with HTTP 500. -/
def oracleAllFail : ℕ → AttemptResult := fun _ => .httpError 500

/-- A trivial decoder used when instantiating the adapter model. -/
def decodeBad : String → RemoteOKResponse := fun _ => .badBody

/-- A raw RemoteOK record whose optional fields are all absent. -/
def rawRemoteOKDefaults : RemoteOKRawRecord :=
  { id := some "99", position := some "Dev", company := some "Acme"
    url := some "https://acme.example/d", salary_min := none, salary_max := none
    location := none, tags := none, date := some "2024-01-02" }

/-- The parse result of `rawRemoteOKDefaults`. -/
def parsedRemoteOKDefaults : RemoteOKJob :=
  { id := "99", position := "Dev", company := "Acme", url := "https://acme.example/d"
    salary_min := 0, salary_max := 0, location := "", tags := [], date := "2024-01-02" }

/-- A raw Web3.Career record whose optional fields are all absent. -/
def rawWeb3Defaults : Web3CareerRawRecord :=
  { id := some 7, title := some "Dev", company := some "Octo"
    apply_url := some "https://octo.example/d", date := some "2024-01-02"
    is_remote := none, location := none, country := none, tags := none
    salary_min_value := .absent, salary_max_value := .absent
    salary_currency := .absent, salary_unit := .absent }

/-- The parse result of `rawWeb3Defaults`. -/
def parsedWeb3Defaults : Web3CareerJob :=
  { id := 7, title := "Dev", company := "Octo", apply_url := "https://octo.example/d"
    date := "2024-01-02", is_remote := false, location := "", country := ""
    tags := [], salary_min_value := .absent, salary_max_value := .absent
    salary_currency := .absent, salary_unit := .absent }

/-- A raw RemoteOK record carrying a negative `salary_min` that the
schema nevertheless accepts. -/
def rawNegativeSalary : RemoteOKRawRecord :=
  { rawRemoteOKDefaults with salary_min := some (-1), salary_max := some 0 }

/-- Two scored matches with equal score and distinct timestamps
(Scenario B's shape). -/
def matchEarly : MatchResult :=
  { job := { jobDup with postedAt := 2 }, score := 80, matchedSkills := ["go"]
    explanation := [] }

/-- The later-posted of the two equal-score matches. -/
def matchLate : MatchResult :=
  { job := { jobDupW3 with postedAt := 5 }, score := 80, matchedSkills := ["go"]
    explanation := [] }

/-! ## Helper lemmas -/

/-- `listIncludes` decides list infixhood. -/
theorem listIncludes_iff_isInfix (pat l : List Char) :
    listIncludes pat l = true ↔ pat <:+: l := by
  induction l with
  | nil =>
    simp only [listIncludes, List.isPrefixOf_iff_prefix, List.infix_iff_prefix_suffix]
    constructor
    · intro h
      exact ⟨[], h, List.suffix_refl []⟩
    · rintro ⟨t, hp, hs⟩
      simp only [List.suffix_nil] at hs
      simpa [hs] using hp
  | cons a t ih =>
    simp only [listIncludes, Bool.or_eq_true, List.isPrefixOf_iff_prefix, ih]
    constructor
    · rintro (h | h)
      · exact h.isInfix
      · exact List.infix_cons h
    · intro h
      rcases h with ⟨s₁, s₂, h⟩
      match s₁, h with
      | [], h => exact Or.inl ⟨s₂, by simpa using h⟩
      | b :: s₁, h =>
        refine Or.inr ⟨s₁, s₂, ?_⟩
        simpa using congrArg List.tail h

/-- A string is the empty string exactly when its character list is
empty. -/
theorem string_eq_empty_iff (s : String) : s = "" ↔ s.data = [] := by
  cases s
  simp [String.ext_iff]

/-- Appending to the right cannot erase a non-empty string. -/
theorem append_ne_empty_of_left_ne_empty (s t : String) (h : s ≠ "") : s ++ t ≠ "" := by
  intro hc
  rw [string_eq_empty_iff, String.data_append] at hc
  exact h ((string_eq_empty_iff s).mpr (List.append_eq_nil.mp hc).1)

/-- Clamping to 100 commutes with JS rounding: the code computes
`Math.min(100, Math.round(x))`, the spec writes
`round(min(100, x))`; the two agree on every rational. -/
theorem min_jsRound_comm (q : ℚ) : min 100 (jsRound q) = jsRound (min 100 q) := by
  unfold jsRound
  rcases le_total q 100 with h | h
  · rw [min_eq_right h]
    refine min_eq_right ?_
    have h2 : ⌊q + 1 / 2⌋ ≤ ⌊(100 : ℚ) + 1 / 2⌋ := Int.floor_le_floor (by linarith)
    have h3 : ⌊(100 : ℚ) + 1 / 2⌋ = 100 := by norm_num
    omega
  · rw [min_eq_left h]
    have h2 : (100 : ℤ) ≤ ⌊q + 1 / 2⌋ := Int.le_floor.mpr (by push_cast; linarith)
    rw [min_eq_left h2]
    norm_num

/-- The comparator order in relational form: descending score, ties by
descending timestamp. -/
theorem matchLE_iff (a b : MatchResult) :
    matchLE a b = true ↔
      b.score < a.score ∨ (b.score = a.score ∧ b.job.postedAt ≤ a.job.postedAt) := by
  simp only [matchLE, jsCompare, decide_eq_true_eq]
  split_ifs with h
  · constructor
    · intro hle
      exact Or.inr ⟨by omega, by omega⟩
    · rintro (hlt | ⟨he, ht⟩) <;> omega
  · constructor
    · intro hle
      exact Or.inl (by omega)
    · rintro (hlt | ⟨he, ht⟩) <;> omega

/-- Transitivity of the comparator order. -/
theorem matchLE_trans (a b c : MatchResult) (hab : matchLE a b = true)
    (hbc : matchLE b c = true) : matchLE a c = true := by
  rw [matchLE_iff] at *
  rcases hab with h1 | ⟨h1, h1'⟩ <;> rcases hbc with h2 | ⟨h2, h2'⟩
  · exact Or.inl (by omega)
  · exact Or.inl (by omega)
  · exact Or.inl (by omega)
  · exact Or.inr ⟨by omega, by omega⟩

/-- Totality of the comparator order. -/
theorem matchLE_total (a b : MatchResult) : (matchLE a b || matchLE b a) = true := by
  rcases Bool.eq_false_or_eq_true (matchLE a b) with h | h
  · rw [h, Bool.true_or]
  · rw [h, Bool.false_or, matchLE_iff]
    have h2 : ¬(b.score < a.score ∨ (b.score = a.score ∧ b.job.postedAt ≤ a.job.postedAt)) := by
      intro hc
      rw [← matchLE_iff] at hc
      rw [h] at hc
      exact Bool.false_ne_true hc
    push_neg at h2
    rcases lt_trichotomy a.score b.score with hlt | heq | hgt
    · exact Or.inl hlt
    · exact Or.inr ⟨heq, by have := h2.2 heq.symm; omega⟩
    · exact absurd hgt (not_lt.mpr h2.1)

/-- The kept jobs of the dedup loop form a subsequence of its input. -/
theorem dedupeJobs_sublist (seen : List String) (l : List Job) :
    (dedupeJobs seen l).1.Sublist l := by
  induction l generalizing seen with
  | nil => simp [dedupeJobs]
  | cons j rest ih =>
    simp only [dedupeJobs]
    split_ifs with h
    · exact (ih seen).trans (List.sublist_cons_self j rest)
    · exact (ih (j.id :: seen)).cons₂ j

/-- No kept job's id lies in the entering `seen` set. -/
theorem dedupeJobs_not_mem_seen (seen : List String) (l : List Job) :
    ∀ j ∈ (dedupeJobs seen l).1, j.id ∉ seen := by
  induction l generalizing seen with
  | nil => simp [dedupeJobs]
  | cons j rest ih =>
    intro j' hj'
    simp only [dedupeJobs] at hj'
    split_ifs at hj' with h
    · exact ih seen j' hj'
    · rcases List.mem_cons.mp hj' with rfl | hm
      · simpa using h
      · intro hc
        exact ih (j.id :: seen) j' hm (List.mem_cons_of_mem _ hc)

/-- The kept jobs have pairwise distinct ids. -/
theorem dedupeJobs_nodup (seen : List String) (l : List Job) :
    ((dedupeJobs seen l).1.map Job.id).Nodup := by
  induction l generalizing seen with
  | nil => simp [dedupeJobs]
  | cons j rest ih =>
    simp only [dedupeJobs]
    split_ifs with h
    · exact ih seen
    · simp only [List.map_cons, List.nodup_cons]
      refine ⟨?_, ih (j.id :: seen)⟩
      intro hc
      rcases List.mem_map.mp hc with ⟨j', hj', he⟩
      exact dedupeJobs_not_mem_seen (j.id :: seen) rest j' hj' (he ▸ List.mem_cons_self _ _)

/-- Kept count plus duplicate count equals the input length. -/
theorem dedupeJobs_length (seen : List String) (l : List Job) :
    (dedupeJobs seen l).1.length + (dedupeJobs seen l).2 = l.length := by
  induction l generalizing seen with
  | nil => simp [dedupeJobs]
  | cons j rest ih =>
    simp only [dedupeJobs]
    split_ifs with h
    · have := ih seen
      simp only [List.length_cons]
      omega
    · have := ih (j.id :: seen)
      simp only [List.length_cons]
      omega

/-- For any id not yet seen, the first kept job with that id is the first
input job with that id. -/
theorem dedupeJobs_find? (seen : List String) (l : List Job) (s : String)
    (hs : s ∉ seen) :
    (dedupeJobs seen l).1.find? (fun j => j.id == s) = l.find? (fun j => j.id == s) := by
  induction l generalizing seen with
  | nil => simp [dedupeJobs]
  | cons j rest ih =>
    simp only [dedupeJobs]
    by_cases he : j.id = s
    · subst he
      have h : ¬ seen.contains j.id = true := by simpa using hs
      rw [if_neg h]
      simp [List.find?_cons, BEq.refl]
    · split_ifs with h
      · rw [ih seen hs, List.find?_cons]
        have hb : (j.id == s) = false := by simpa using he
        rw [hb]
      · rw [List.find?_cons, List.find?_cons]
        have hb : (j.id == s) = false := by simpa using he
        rw [hb]
        refine ih (j.id :: seen) ?_
        simp only [List.mem_cons, not_or]
        exact ⟨fun hc => he hc.symm, hs⟩

/-- On an input with pairwise-distinct ids none of which was seen, the
dedup loop keeps everything and counts no duplicate. -/
theorem dedupeJobs_eq_self (seen : List String) (l : List Job)
    (hn : (l.map Job.id).Nodup) (hd : ∀ j ∈ l, j.id ∉ seen) :
    dedupeJobs seen l = (l, 0) := by
  induction l generalizing seen with
  | nil => simp [dedupeJobs]
  | cons j rest ih =>
    simp only [dedupeJobs]
    have h : ¬ seen.contains j.id = true := by
      simpa using hd j (List.mem_cons_self _ _)
    rw [if_neg h]
    have hn' : (∀ x ∈ rest, ¬ x.id = j.id) ∧ (rest.map Job.id).Nodup := by
      simpa using hn
    have hrest : dedupeJobs (j.id :: seen) rest = (rest, 0) := by
      refine ih (j.id :: seen) hn'.2 ?_
      intro j' hj'
      simp only [List.mem_cons, not_or]
      exact ⟨hn'.1 j' hj', hd j' (List.mem_cons_of_mem _ hj')⟩
    simp [hrest]

/-- The retry loop entered at attempt `a` returns the first success among
the remaining attempt numbers. -/
theorem fetchWithRetryFrom_eq_findSome? (o : ℕ → AttemptResult) (n a : ℕ)
    (h : MAX_RETRIES + 1 - a = n) :
    fetchWithRetryFrom o a =
      (List.range' a n).findSome? fun i => attemptSuccess (o i) := by
  induction n generalizing a with
  | zero =>
    have ha : ¬ a ≤ MAX_RETRIES := by omega
    rw [fetchWithRetryFrom, if_neg ha]
    simp [List.range']
  | succ n ih =>
    have ha : a ≤ MAX_RETRIES := by omega
    rw [fetchWithRetryFrom, if_pos ha]
    have hr : List.range' a (n + 1) = a :: List.range' (a + 1) n := rfl
    rw [hr, List.findSome?_cons]
    cases hs : attemptSuccess (o a) with
    | some body => rfl
    | none => exact ih (a + 1) (by omega)

/-! ## Claim theorems -/

/-- **C1**: for every job and every configuration with a non-empty
preference skill list, `scoreJob`'s score equals
`round(min(100, skillScore + salaryBonus + locationBonus))` — an integer —
with `skillScore = (|matchedSkills| / |preference skills|) * 100`,
`matchedSkills` the lower-cased preference skills exactly equal to some
lower-cased job skill, `salaryBonus = 10` iff the job's minimum salary
meets the preference minimum, `locationBonus = 10` iff the lower-cased
job location contains the lower-cased preferred location or the latter
contains `"remote"`; and the Scenario A instance scores 87. -/
theorem claim_C1_scoreJob (job : Job) (config : Config)
    (hskills : config.preferences.skills ≠ []) :
    ((scoreJob job config).1 =
      jsRound (min 100
        ((((config.preferences.skills.map jsToLower).filter fun skill =>
              (job.skills.map jsToLower).any fun js => js = skill).length : ℚ) /
            (config.preferences.skills.length : ℚ) * 100
          + (if config.preferences.salaryMinimum ≤ job.salary.min then 10 else 0)
          + (if (jsToLower config.preferences.location).data <:+: (jsToLower job.location).data
                ∨ "remote".data <:+: (jsToLower config.preferences.location).data
             then 10 else 0))))
    ∧ (scoreJob job config).2 = ((config.preferences.skills.map jsToLower).filter fun skill =>
          (job.skills.map jsToLower).any fun js => js = skill)
    ∧ (scoreJob jobA cfgA).1 = 87 := by
  refine ⟨?_, rfl, ?_⟩
  · simp only [scoreJob, min_jsRound_comm, List.length_map, Bool.or_eq_true, jsIncludes,
      listIncludes_iff_isInfix]
  · have h1 : (["rust", "go", "python"].map jsToLower).filter
        (fun skill => (jobA.skills.map jsToLower).any fun js => js = skill) = ["rust", "go"] := by
      decide
    have h2 : jsIncludes (jsToLower "Berlin") (jsToLower "berlin") = true := by decide
    simp only [scoreJob, cfgA, jobA] at *
    rw [h1]
    simp only [h2, Bool.true_or, if_true]
    norm_num [jsRound]

/-- **C4**: with a non-empty hard-no list, `filterHardNos` returns
exactly the jobs, in order, for which no hard-no pattern is a
case-insensitive substring of the title, the company, or any skill
tag. -/
theorem claim_C4_filterHardNos (jobs : List Job) (hardNos : List String)
    (h : hardNos ≠ []) :
    filterHardNos jobs hardNos = jobs.filter fun job =>
      !(hardNos.any fun p => (job.title :: job.company :: job.skills).any fun f =>
          decide ((jsToLower p).data <:+: (jsToLower f).data)) := by
  unfold filterHardNos
  rw [if_neg (by simpa using h)]
  refine List.filter_congr ?_
  intro job hj
  rw [Bool.eq_iff_iff]
  simp only [decide_eq_true_eq, List.length_eq_zero, List.filter_eq_nil, List.any_eq_true,
    List.mem_map, Bool.not_eq_true', List.any_eq_false, jsIncludes]
  constructor
  · intro hl p hp hc
    rcases hc with ⟨f, hf, hinf⟩
    refine hl (jsToLower p) ⟨p, hp, rfl⟩ ?_
    exact ⟨jsToLower f, ⟨f, hf, rfl⟩, (listIncludes_iff_isInfix _ _).mpr hinf⟩
  · intro hr a ha hc
    rcases ha with ⟨p, hp, rfl⟩
    rcases hc with ⟨f', ⟨f, hf, rfl⟩, hinc⟩
    exact hr p hp ⟨f, hf, (listIncludes_iff_isInfix _ _).mp hinc⟩

/-- **C5**: filtering with an empty hard-no list is the identity: the
explicit fast path returns the input sequence unchanged. -/
theorem claim_C5_emptyHardNos (jobs : List Job) : filterHardNos jobs [] = jobs := by
  simp [filterHardNos]

/-- Witness for C1: the Scenario A configuration has a non-empty skill
list and the theorem instantiates to the score 87. -/
theorem claim_C1_scoreJob_witness :
    cfgA.preferences.skills ≠ [] ∧ (scoreJob jobA cfgA).1 = 87 :=
  ⟨by decide, (claim_C1_scoreJob jobA cfgA (by decide)).2.2⟩

/-- Witness for C4: Scenario C's pattern list is non-empty, the theorem
applies, and the `"Crypto Backend Engineer"` job is excluded. -/
theorem claim_C4_filterHardNos_witness :
    (filterHardNos [jobC] ["crypto"] = [jobC].filter fun job =>
      !(["crypto"].any fun p => (job.title :: job.company :: job.skills).any fun f =>
          decide ((jsToLower p).data <:+: (jsToLower f).data)))
    ∧ filterHardNos [jobC] ["crypto"] = [] :=
  ⟨claim_C4_filterHardNos [jobC] ["crypto"] (by decide), by decide⟩

/-- **C2**: the aggregation step keeps a subsequence of the concatenated
adapter results with pairwise distinct ids, its length plus the
duplicate count is the input length, for every id the first kept job is
the first input job with that id, and two jobs carrying the
content-derived id of the same title+company collapse to the
first-provider copy. -/
theorem claim_C2_fetchAllJobsDedup (remoteOKJobs web3Jobs : List Job) :
    (fetchAllJobsDedup remoteOKJobs web3Jobs).Sublist (remoteOKJobs ++ web3Jobs)
    ∧ ((fetchAllJobsDedup remoteOKJobs web3Jobs).map Job.id).Nodup
    ∧ (fetchAllJobsDedup remoteOKJobs web3Jobs).length
        + (dedupeJobs [] (remoteOKJobs ++ web3Jobs)).2 = (remoteOKJobs ++ web3Jobs).length
    ∧ (∀ s : String, (fetchAllJobsDedup remoteOKJobs web3Jobs).find? (fun j => j.id == s)
        = (remoteOKJobs ++ web3Jobs).find? (fun j => j.id == s))
    ∧ (∀ j1 j2 : Job, j1.title = j2.title → j1.company = j2.company →
        j1.id = generateJobId j1.title j1.company →
        j2.id = generateJobId j2.title j2.company →
        fetchAllJobsDedup [j1] [j2] = [j1]) := by
  refine ⟨dedupeJobs_sublist [] _, dedupeJobs_nodup [] _, dedupeJobs_length [] _,
    fun s => dedupeJobs_find? [] _ s (List.not_mem_nil s), ?_⟩
  intro j1 j2 ht hc h1 h2
  have hid : j2.id = j1.id := by rw [h1, h2, ht, hc]
  simp [fetchAllJobsDedup, dedupeJobs, hid]

/-- Witness for C2: the same title+company reported by both providers is
kept once, from the provider listed first. -/
theorem claim_C2_fetchAllJobsDedup_witness :
    fetchAllJobsDedup [jobDup] [jobDupW3] = [jobDup] :=
  (claim_C2_fetchAllJobsDedup [jobDup] [jobDupW3]).2.2.2.2 jobDup jobDupW3
    rfl rfl rfl rfl

/-- The stable sort preserves the input order inside every class of
elements sharing both sort keys, on every input: filtering the sorted
list by a key pair returns the input's jobs with that key pair in their
original order. -/
theorem mergeSort_matchLE_filter_key (l : List MatchResult) (s t : ℤ) :
    (l.mergeSort matchLE).filter (fun m => decide (m.score = s ∧ m.job.postedAt = t))
      = l.filter (fun m => decide (m.score = s ∧ m.job.postedAt = t)) := by
  have hperm := List.mergeSort_perm l matchLE
  set p : MatchResult → Bool := fun m => decide (m.score = s ∧ m.job.postedAt = t) with hp
  have hc : (l.filter p).Pairwise (fun a b => matchLE a b = true) := by
    refine List.pairwise_of_forall_mem_list ?_
    intro a ha b hb
    have ha' := of_decide_eq_true (List.mem_filter.mp ha).2
    have hb' := of_decide_eq_true (List.mem_filter.mp hb).2
    rw [matchLE_iff]
    exact Or.inr ⟨by rw [hb'.1, ha'.1], by rw [hb'.2, ha'.2]⟩
  have hsub : (l.filter p).Sublist (l.mergeSort matchLE) :=
    List.sublist_mergeSort matchLE_trans matchLE_total hc (List.filter_sublist l)
  have hsub2 : (l.filter p).Sublist ((l.mergeSort matchLE).filter p) := by
    have h0 := List.Sublist.filter p hsub
    rwa [List.filter_eq_self.mpr (fun a ha => (List.mem_filter.mp ha).2)] at h0
  have hlen2 : (l.filter p).length = ((l.mergeSort matchLE).filter p).length :=
    (List.Perm.filter p hperm.symm).length_eq
  exact (hsub2.eq_of_length hlen2).symm

/-- **C3**: for every input, the ranking step returns the first
`TOP_MATCHES = 10` elements of a list that is a permutation of the whole
input, is sorted descending by score with descending-`postedAt`
tie-breaks, and preserves the input order inside every class of
elements equal on both sort keys (stability) — so the output is the
stably sorted input truncated to at most 10 elements; in particular the
output has at most 10 elements and is itself so sorted, and an input of
at most 10 elements is returned whole: the output is then a permutation
of the input whose key classes keep their input order. -/
theorem claim_C3_rankMatches (l : List MatchResult) :
    (∃ sortedAll : List MatchResult,
        sortedAll.Perm l
        ∧ sortedAll.Pairwise (fun a b =>
            b.score < a.score ∨ (b.score = a.score ∧ b.job.postedAt ≤ a.job.postedAt))
        ∧ (∀ s t : ℤ, sortedAll.filter (fun m => decide (m.score = s ∧ m.job.postedAt = t))
            = l.filter (fun m => decide (m.score = s ∧ m.job.postedAt = t)))
        ∧ rankMatches l = sortedAll.take TOP_MATCHES)
    ∧ (rankMatches l).length ≤ TOP_MATCHES
    ∧ (rankMatches l).Pairwise (fun a b =>
        b.score < a.score ∨ (b.score = a.score ∧ b.job.postedAt ≤ a.job.postedAt))
    ∧ (l.length ≤ TOP_MATCHES → (rankMatches l).Perm l)
    ∧ (l.length ≤ TOP_MATCHES → ∀ s t : ℤ,
        (rankMatches l).filter (fun m => decide (m.score = s ∧ m.job.postedAt = t))
          = l.filter (fun m => decide (m.score = s ∧ m.job.postedAt = t))) := by
  have hsorted := List.sorted_mergeSort matchLE_trans matchLE_total l
  have hsorted' : (l.mergeSort matchLE).Pairwise (fun a b =>
      b.score < a.score ∨ (b.score = a.score ∧ b.job.postedAt ≤ a.job.postedAt)) :=
    hsorted.imp fun hab => (matchLE_iff _ _).mp hab
  have hperm := List.mergeSort_perm l matchLE
  have hlen : (l.mergeSort matchLE).length = l.length := hperm.length_eq
  have htake : l.length ≤ TOP_MATCHES → rankMatches l = l.mergeSort matchLE := by
    intro hle
    unfold rankMatches
    exact List.take_of_length_le (by rw [hlen]; exact hle)
  refine ⟨⟨l.mergeSort matchLE, hperm, hsorted', mergeSort_matchLE_filter_key l, rfl⟩,
    ?_, ?_, ?_, ?_⟩
  · simp [rankMatches, List.length_take]
  · exact List.Pairwise.sublist (List.take_sublist TOP_MATCHES _) hsorted'
  · intro hle
    rw [htake hle]
    exact hperm
  · intro hle s t
    rw [htake hle]
    exact mergeSort_matchLE_filter_key l s t

/-- Witness for C3: on a concrete two-element equal-score input the
theorem yields a permutation of the input (the cap hypothesis holds). -/
theorem claim_C3_rankMatches_witness :
    [matchEarly, matchLate].length ≤ TOP_MATCHES
    ∧ (rankMatches [matchEarly, matchLate]).Perm [matchEarly, matchLate] :=
  ⟨by decide, (claim_C3_rankMatches [matchEarly, matchLate]).2.2.2.1 (by decide)⟩

/-- **C6**: `fetchWithRetry` consults at most `MAX_RETRIES + 1 = 3`
attempt outcomes, returns the first successful response among them, and
when all three fail it returns `none` (never an error), after which the
adapter yields the empty job sequence. -/
theorem claim_C6_fetchWithRetry (outcomes : ℕ → AttemptResult)
    (decode : String → RemoteOKResponse) :
    (∀ outcomes' : ℕ → AttemptResult, (∀ i, i ≤ MAX_RETRIES → outcomes i = outcomes' i) →
        fetchWithRetry outcomes = fetchWithRetry outcomes')
    ∧ fetchWithRetry outcomes =
        ((List.range (MAX_RETRIES + 1)).findSome? fun i => attemptSuccess (outcomes i))
    ∧ ((∀ i, i ≤ MAX_RETRIES → attemptSuccess (outcomes i) = none) →
        fetchWithRetry outcomes = none ∧ fetchFromRemoteOK outcomes decode = []) := by
  have hchar : ∀ o : ℕ → AttemptResult, fetchWithRetry o =
      ((List.range (MAX_RETRIES + 1)).findSome? fun i => attemptSuccess (o i)) := by
    intro o
    rw [List.range_eq_range']
    exact fetchWithRetryFrom_eq_findSome? o (MAX_RETRIES + 1) 0 rfl
  refine ⟨?_, hchar outcomes, ?_⟩
  · intro outcomes' hagree
    rw [hchar outcomes, hchar outcomes']
    have h0 := hagree 0 (by simp [MAX_RETRIES])
    have h1 := hagree 1 (by simp [MAX_RETRIES])
    have h2 := hagree 2 (by simp [MAX_RETRIES])
    have hr : List.range (MAX_RETRIES + 1) = [0, 1, 2] := by decide
    rw [hr]
    simp [List.findSome?, h0, h1, h2]
  · intro hfail
    have hnone : fetchWithRetry outcomes = none := by
      rw [hchar outcomes]
      have hr : List.range (MAX_RETRIES + 1) = [0, 1, 2] := by decide
      rw [hr]
      simp [List.findSome?, hfail 0 (by simp [MAX_RETRIES]), hfail 1 (by simp [MAX_RETRIES]),
        hfail 2 (by simp [MAX_RETRIES])]
    refine ⟨hnone, ?_⟩
    unfold fetchFromRemoteOK
    rw [hnone]

/-- Witness for C6: on the all-HTTP-500 oracle the theorem yields the
`null` result and the empty adapter output. -/
theorem claim_C6_fetchWithRetry_witness :
    fetchWithRetry oracleAllFail = none ∧ fetchFromRemoteOK oracleAllFail decodeBad = [] :=
  (claim_C6_fetchWithRetry oracleAllFail decodeBad).2.2 (fun i _ => rfl)

/-- A JS `a || b` string fallback is non-empty whenever `b` is. -/
theorem jsOrStr_ne_empty (a b : String) (hb : b ≠ "") : jsOrStr a b ≠ "" := by
  unfold jsOrStr
  split_ifs with h
  · exact hb
  · exact h

/-- **C7**: both adapters derive a non-empty `salary.raw` and
`salary.currency` exactly when the normalized salary has `min > 0` or
`max > 0`, and leave both equal to `""` otherwise. -/
theorem claim_C7_salaryDerivation (r : RemoteOKJob) (w : Web3CareerJob) :
    (((0 < (normalizeRemoteOKJob r).salary.min ∨ 0 < (normalizeRemoteOKJob r).salary.max) →
        (normalizeRemoteOKJob r).salary.raw ≠ "" ∧ (normalizeRemoteOKJob r).salary.currency ≠ "")
      ∧ (¬(0 < (normalizeRemoteOKJob r).salary.min ∨ 0 < (normalizeRemoteOKJob r).salary.max) →
        (normalizeRemoteOKJob r).salary.raw = "" ∧ (normalizeRemoteOKJob r).salary.currency = ""))
    ∧ (((0 < (normalizeWeb3CareerJob w).salary.min ∨ 0 < (normalizeWeb3CareerJob w).salary.max) →
        (normalizeWeb3CareerJob w).salary.raw ≠ "" ∧
          (normalizeWeb3CareerJob w).salary.currency ≠ "")
      ∧ (¬(0 < (normalizeWeb3CareerJob w).salary.min ∨
            0 < (normalizeWeb3CareerJob w).salary.max) →
        (normalizeWeb3CareerJob w).salary.raw = "" ∧
          (normalizeWeb3CareerJob w).salary.currency = "")) := by
  constructor
  · simp only [normalizeRemoteOKJob]
    by_cases hs : 0 < r.salary_min ∨ 0 < r.salary_max
    · rw [if_pos hs, if_pos hs]
      refine ⟨fun _ => ⟨?_, by decide⟩, fun hc => absurd hs hc⟩
      exact append_ne_empty_of_left_ne_empty _ _
        (append_ne_empty_of_left_ne_empty _ _
          (append_ne_empty_of_left_ne_empty _ _ (by decide)))
    · rw [if_neg hs, if_neg hs]
      exact ⟨fun hc => absurd hc hs, fun _ => ⟨rfl, rfl⟩⟩
  · simp only [normalizeWeb3CareerJob, normalizeWeb3CareerSalary]
    by_cases hs : 0 < jsOrZero (jsNumber w.salary_min_value) ∨
        0 < jsOrZero (jsNumber w.salary_max_value)
    · rw [if_pos hs, if_pos hs]
      refine ⟨fun _ => ⟨?_, jsOrStr_ne_empty _ _ (by decide)⟩, fun hc => absurd hs hc⟩
      exact append_ne_empty_of_left_ne_empty _ _
        (append_ne_empty_of_left_ne_empty _ _
          (append_ne_empty_of_left_ne_empty _ _
            (append_ne_empty_of_left_ne_empty _ _ (jsOrStr_ne_empty _ _ (by decide)))))
    · rw [if_neg hs, if_neg hs]
      exact ⟨fun hc => absurd hc hs, fun _ => ⟨rfl, rfl⟩⟩

/-- Witness for C7 (Scenario D): undisclosed salaries (`min = max = 0`)
from either adapter yield empty `raw` and `currency`. -/
theorem claim_C7_salaryDerivation_witness :
    (normalizeRemoteOKJob parsedRemoteOKDefaults).salary.raw = ""
    ∧ (normalizeRemoteOKJob parsedRemoteOKDefaults).salary.currency = ""
    ∧ (normalizeWeb3CareerJob parsedWeb3Defaults).salary.raw = ""
    ∧ (normalizeWeb3CareerJob parsedWeb3Defaults).salary.currency = "" := by
  have h := claim_C7_salaryDerivation parsedRemoteOKDefaults parsedWeb3Defaults
  have h1 := h.1.2 (by decide)
  have h2 := h.2.2 (by decide)
  exact ⟨h1.1, h1.2, h2.1, h2.2⟩

/-- Inverting a successful RemoteOK schema parse: the parsed optional
fields are the raw ones with zod's defaults applied. -/
theorem safeParseRemoteOK_fields (rr : RemoteOKRawRecord) (r : RemoteOKJob)
    (hp : safeParseRemoteOK rr = some r) :
    r.salary_min = rr.salary_min.getD 0 ∧ r.salary_max = rr.salary_max.getD 0
    ∧ r.location = rr.location.getD "" ∧ r.tags = rr.tags.getD [] := by
  cases hid : rr.id with
  | none => simp [safeParseRemoteOK, hid] at hp
  | some id =>
  cases hpos : rr.position with
  | none => simp [safeParseRemoteOK, hid, hpos] at hp
  | some position =>
  cases hcom : rr.company with
  | none => simp [safeParseRemoteOK, hid, hpos, hcom] at hp
  | some company =>
  cases hurl : rr.url with
  | none => simp [safeParseRemoteOK, hid, hpos, hcom, hurl] at hp
  | some url =>
  cases hdate : rr.date with
  | none => simp [safeParseRemoteOK, hid, hpos, hcom, hurl, hdate] at hp
  | some date =>
  simp only [safeParseRemoteOK, hid, hpos, hcom, hurl, hdate, Option.bind_eq_bind,
    Option.some_bind] at hp
  split_ifs at hp
  injection hp with hp
  subst hp
  exact ⟨rfl, rfl, rfl, rfl⟩

/-- Inverting a successful Web3.Career schema parse: the parsed optional
fields are the raw ones with zod's defaults applied, and the
nullable-optional salary fields are passed through. -/
theorem safeParseWeb3Career_fields (wr : Web3CareerRawRecord) (w : Web3CareerJob)
    (hp : safeParseWeb3Career wr = some w) :
    w.is_remote = wr.is_remote.getD false ∧ w.tags = wr.tags.getD []
    ∧ w.salary_min_value = wr.salary_min_value
    ∧ w.salary_max_value = wr.salary_max_value := by
  cases hid : wr.id with
  | none => simp [safeParseWeb3Career, hid] at hp
  | some id =>
  cases htit : wr.title with
  | none => simp [safeParseWeb3Career, hid, htit] at hp
  | some title =>
  cases hcom : wr.company with
  | none => simp [safeParseWeb3Career, hid, htit, hcom] at hp
  | some company =>
  cases hurl : wr.apply_url with
  | none => simp [safeParseWeb3Career, hid, htit, hcom, hurl] at hp
  | some apply_url =>
  cases hdate : wr.date with
  | none => simp [safeParseWeb3Career, hid, htit, hcom, hurl, hdate] at hp
  | some date =>
  simp only [safeParseWeb3Career, hid, htit, hcom, hurl, hdate, Option.bind_eq_bind,
    Option.some_bind] at hp
  split_ifs at hp
  injection hp with hp
  subst hp
  exact ⟨rfl, rfl, rfl, rfl⟩

/-- **C8**: for raw records accepted by an adapter's schema, an absent
optional boolean flag (`is_remote`, the only one — RemoteOK's schema has
no optional boolean, and claims about it hold vacuously) yields
`remote = false`, absent salary fields yield `0`, and an absent tag list
yields no skills, for both adapters. -/
theorem claim_C8_schemaDefaults (rr : RemoteOKRawRecord) (r : RemoteOKJob)
    (wr : Web3CareerRawRecord) (w : Web3CareerJob)
    (hr : safeParseRemoteOK rr = some r) (hw : safeParseWeb3Career wr = some w) :
    (rr.salary_min = none → (normalizeRemoteOKJob r).salary.min = 0)
    ∧ (rr.salary_max = none → (normalizeRemoteOKJob r).salary.max = 0)
    ∧ (rr.tags = none → (normalizeRemoteOKJob r).skills = [])
    ∧ (wr.is_remote = none → (normalizeWeb3CareerJob w).remote = false)
    ∧ (wr.salary_min_value = JsNumStr.absent → (normalizeWeb3CareerJob w).salary.min = 0)
    ∧ (wr.salary_max_value = JsNumStr.absent → (normalizeWeb3CareerJob w).salary.max = 0)
    ∧ (wr.tags = none → (normalizeWeb3CareerJob w).skills = []) := by
  obtain ⟨hr1, hr2, -, hr4⟩ := safeParseRemoteOK_fields rr r hr
  obtain ⟨hw1, hw2, hw3, hw4⟩ := safeParseWeb3Career_fields wr w hw
  refine ⟨?_, ?_, ?_, ?_, ?_, ?_, ?_⟩
  · intro h
    show r.salary_min = 0
    rw [hr1, h]
    rfl
  · intro h
    show r.salary_max = 0
    rw [hr2, h]
    rfl
  · intro h
    show r.tags.map jsToLower = []
    rw [hr4, h]
    rfl
  · intro h
    show w.is_remote = false
    rw [hw1, h]
    rfl
  · intro h
    show jsOrZero (jsNumber w.salary_min_value) = 0
    rw [hw3, h]
    rfl
  · intro h
    show jsOrZero (jsNumber w.salary_max_value) = 0
    rw [hw4, h]
    rfl
  · intro h
    show w.tags.map jsToLower = []
    rw [hw2, h]
    rfl

/-- Witness for C8: the all-optional-fields-absent records parse and
their normalizations carry the documented sentinels. -/
theorem claim_C8_schemaDefaults_witness :
    (normalizeRemoteOKJob parsedRemoteOKDefaults).salary.min = 0
    ∧ (normalizeRemoteOKJob parsedRemoteOKDefaults).salary.max = 0
    ∧ (normalizeRemoteOKJob parsedRemoteOKDefaults).skills = []
    ∧ (normalizeWeb3CareerJob parsedWeb3Defaults).remote = false
    ∧ (normalizeWeb3CareerJob parsedWeb3Defaults).salary.min = 0
    ∧ (normalizeWeb3CareerJob parsedWeb3Defaults).salary.max = 0
    ∧ (normalizeWeb3CareerJob parsedWeb3Defaults).skills = [] := by
  have h := claim_C8_schemaDefaults rawRemoteOKDefaults parsedRemoteOKDefaults
    rawWeb3Defaults parsedWeb3Defaults (by decide) (by decide)
  exact ⟨h.1 rfl, h.2.1 rfl, h.2.2.1 rfl, h.2.2.2.1 rfl, h.2.2.2.2.1 rfl,
    h.2.2.2.2.2.1 rfl, h.2.2.2.2.2.2 rfl⟩

/-- Counterexample to **C9** as stated: the RemoteOK schema accepts a
record with `salary_min = -1` (zod's `z.number()` carries no sign
constraint), and normalization passes the negative value through to
`salary.min`. -/
theorem claim_C9_counterexample :
    (safeParseRemoteOK rawNegativeSalary).isSome = true
    ∧ ((safeParseRemoteOK rawNegativeSalary).map
        fun r => (normalizeRemoteOKJob r).salary.min) = some (-1)
    ∧ ¬ (0 : ℚ) ≤ (-1 : ℚ) := by
  refine ⟨by decide, by decide, by decide⟩

/-- **C9 (amended)**: normalized salaries are non-negative provided the
accepted raw salary values are: RemoteOK passes `salary_min`/`salary_max`
through unchanged, and Web3.Career maps null/absent/non-numeric values
to `0` and passes coerced numeric values through. -/
theorem claim_C9_amended (r : RemoteOKJob) (w : Web3CareerJob)
    (h1 : 0 ≤ r.salary_min) (h2 : 0 ≤ r.salary_max)
    (h3 : ∀ q : ℚ, jsNumber w.salary_min_value = some q → 0 ≤ q)
    (h4 : ∀ q : ℚ, jsNumber w.salary_max_value = some q → 0 ≤ q) :
    0 ≤ (normalizeRemoteOKJob r).salary.min ∧ 0 ≤ (normalizeRemoteOKJob r).salary.max
    ∧ 0 ≤ (normalizeWeb3CareerJob w).salary.min
    ∧ 0 ≤ (normalizeWeb3CareerJob w).salary.max := by
  refine ⟨h1, h2, ?_, ?_⟩
  · show 0 ≤ jsOrZero (jsNumber w.salary_min_value)
    cases hv : jsNumber w.salary_min_value with
    | none => exact le_refl 0
    | some q =>
      have hq := h3 q hv
      simp only [jsOrZero]
      split_ifs with h
      · exact le_refl 0
      · exact hq
  · show 0 ≤ jsOrZero (jsNumber w.salary_max_value)
    cases hv : jsNumber w.salary_max_value with
    | none => exact le_refl 0
    | some q =>
      have hq := h4 q hv
      simp only [jsOrZero]
      split_ifs with h
      · exact le_refl 0
      · exact hq

/-- Witness for the amended C9 at concrete records. -/
theorem claim_C9_amended_witness :
    0 ≤ (normalizeRemoteOKJob parsedRemoteOKDefaults).salary.min
    ∧ 0 ≤ (normalizeWeb3CareerJob parsedWeb3Defaults).salary.min :=
  have h := claim_C9_amended parsedRemoteOKDefaults parsedWeb3Defaults
    (by decide) (by decide) (fun q hq => Option.noConfusion hq) (fun q hq => Option.noConfusion hq)
  ⟨h.1, h.2.2.1⟩

/-- Counterexample to **C10** as stated: on a duplicated id the
`fetcher.ts` version (plain concatenation) keeps both copies while the
unnamed source file's version deduplicates, so the two functions are not
extensionally equal. -/
theorem claim_C10_counterexample :
    fetchAllJobsConcat [jobDup, jobDup] [] ≠ fetchAllJobsDedup [jobDup, jobDup] [] := by
  decide

/-- **C10 (amended)**: the two `fetchAllJobs` implementations agree on
given per-adapter job sequences exactly when the concatenated input has
pairwise-distinct ids; the deduplicating version then changes nothing. -/
theorem claim_C10_amended (remoteOKJobs web3Jobs : List Job) :
    fetchAllJobsConcat remoteOKJobs web3Jobs = fetchAllJobsDedup remoteOKJobs web3Jobs
      ↔ (((remoteOKJobs ++ web3Jobs).map Job.id).Nodup) := by
  constructor
  · intro he
    have h := dedupeJobs_nodup [] (remoteOKJobs ++ web3Jobs)
    unfold fetchAllJobsConcat fetchAllJobsDedup at he
    rw [← he] at h
    exact h
  · intro hn
    unfold fetchAllJobsConcat fetchAllJobsDedup
    rw [dedupeJobs_eq_self [] _ hn (by simp)]
